import Mathlib

/-
Verification of the conversion and editing core of the ckeditor5-engine
excerpt: view-tree writer operations (UpcastWriter), the upcast and downcast
conversion pipelines, marker-to-highlight conversion, and the DataController
orchestration.  The repository excerpt ships the test suites
(tests/view/upcastwriter.js, tests/controller/datacontroller.js) but not the
implementation modules themselves, so the operations are modelled from the
specification's contracts and checked against the behaviour the tests pin
down.
-/

/-- Modelled from the spec: the view Element's own data (src/view/element.js is
missing from the excerpt).  A view element has a name, attribute key-value
collection, class set, style collection and custom-property collection.  The
`id` field models JavaScript object identity: the writer allocates a fresh id
whenever it constructs a new Element object. -/
structure ElemData where
  id : Nat
  name : String
  attrs : List (String × String)
  classes : List String
  styles : List (String × String)
  custom : List (String × Nat)

/-- Modelled from the spec: a view tree node (src/view/node.js, src/view/text.js
are missing from the excerpt) — either a text run or an element owning an
ordered child sequence. -/
inductive VNode where
  | text (data : String) : VNode
  | element (dt : ElemData) (children : List VNode) : VNode

/-- Modelled from the spec: a view element together with its owned children,
the shape on which the writer's structural operations act
(src/view/element.js is missing from the excerpt). -/
structure VElem where
  dt : ElemData
  children : List VNode

/-- The element viewed as a tree node. -/
def VElem.toNode (e : VElem) : VNode :=
  VNode.element e.dt e.children

/-- Number of children of a view element (`childCount` in the source API). -/
def childCount (e : VElem) : Nat :=
  e.children.length

/-- Modelled from the spec: a model tree node (src/model/node.js,
src/model/text.js, src/model/element.js are missing from the excerpt) — a text
run carrying an attribute mapping, or an element with a name, attributes and
an ordered child sequence. -/
inductive MNode where
  | text (data : String) (attrs : List (String × Bool)) : MNode
  | element (name : String) (attrs : List (String × Bool)) (children : List MNode) : MNode

/-- Whether a model node is a text run. -/
def MNode.isText : MNode → Bool
  | .text _ _ => true
  | .element _ _ _ => false

/-- Set a (boolean) attribute on a model node. -/
def MNode.addAttr (key : String) : MNode → MNode
  | .text d attrs => .text d ((key, true) :: attrs)
  | .element n attrs children => .element n ((key, true) :: attrs) children

namespace UpcastWriter

/-- Modelled from the spec: `insertChild(index, nodes, parent)` of the
UpcastWriter (src/view/upcastwriter.js is missing from the excerpt) inserts the
ordered node sequence at the given offset of the parent's child list and
returns the count of inserted children; the caller-supplied order is
preserved. -/
def insertChild (index : Nat) (nodes : List VNode) (parent : VElem) : Nat × VElem :=
  (nodes.length,
   { parent with children :=
       parent.children.take index ++ (nodes ++ parent.children.drop index) })

/-- Modelled from the spec: `removeChildren(start, howMany, parent)` of the
UpcastWriter (src/view/upcastwriter.js is missing from the excerpt) detaches
`howMany` children starting at `start` and returns them in original document
order. -/
def removeChildren (start howMany : Nat) (parent : VElem) : List VNode × VElem :=
  ((parent.children.drop start).take howMany,
   { parent with children :=
       parent.children.take start ++ parent.children.drop (start + howMany) })

/-- Modelled from the spec: `remove(node)` of the UpcastWriter
(src/view/upcastwriter.js is missing from the excerpt).  The node's parent
pointer is modelled as an optional (parent element, child index) pair; a
detached node has no parent and the call is a no-op returning an empty result,
otherwise the node is detached from its parent via `removeChildren`. -/
def remove (loc : Option (VElem × Nat)) : List VNode × Option VElem :=
  match loc with
  | none => ([], none)
  | some (p, i) =>
      let r := removeChildren i 1 p
      (r.1, some r.2)

/-- Modelled from the spec: `replace(oldNode, newNode)` of the UpcastWriter
(src/view/upcastwriter.js is missing from the excerpt): an atomic
remove-then-insert at the old node's position in its parent; returns `false`
with no effect when the old node is detached (its parent pointer, the `loc`
argument, is `none`), otherwise `true`. -/
def replace (loc : Option (VElem × Nat)) (newNode : VNode) : Bool × Option VElem :=
  match loc with
  | none => (false, none)
  | some (p, i) =>
      let p1 := (removeChildren i 1 p).2
      (true, some (insertChild i [newNode] p1).2)

/-- Modelled from the spec: `rename(newName, element)` of the UpcastWriter
(src/view/upcastwriter.js is missing from the excerpt): a clone of the element
with the new name is constructed (a fresh object, modelled by the fresh `id`)
and swapped in place of the original via `replace`; returns `null` when the
element is detached.  The result pairs the returned element with the updated
parent. -/
def rename (fresh : Nat) (newName : String) (el : VElem) (loc : Option (VElem × Nat)) :
    Option VElem × Option VElem :=
  let newEl : VElem := { dt := { el.dt with name := newName, id := fresh }, children := el.children }
  match loc with
  | none => (none, none)
  | some (p, i) => (some newEl, (replace (some (p, i)) newEl.toNode).2)

/-- Whether the element's class set holds the given class name. -/
def hasClass (c : String) (e : VElem) : Bool :=
  e.dt.classes.any (fun s => s == c)

/-- Modelled from the spec: `removeClass(className, element)` of the
UpcastWriter (src/view/upcastwriter.js is missing from the excerpt): deletes
the class name from the element's class set; a no-op when the class is
absent. -/
def removeClass (c : String) (e : VElem) : VElem :=
  { e with dt := { e.dt with classes := e.dt.classes.filter (fun s => !(s == c)) } }

/-- Value stored under a custom-property key, if any. -/
def getCustomProperty (k : String) (e : VElem) : Option Nat :=
  e.dt.custom.lookup k

/-- Modelled from the spec: `setCustomProperty(key, value, element)` of the
UpcastWriter (src/view/upcastwriter.js is missing from the excerpt): pure
key-value mutation on the element's custom-property collection — an existing
key has its value replaced, a new key is appended.  Property values are
compared by object identity, modelled by identity tokens. -/
def setCustomProperty (k : String) (v : Nat) (e : VElem) : VElem :=
  let cs :=
    if e.dt.custom.any (fun p => p.1 == k) then
      e.dt.custom.map (fun p => if p.1 == k then (p.1, v) else p)
    else
      e.dt.custom ++ [(k, v)]
  { e with dt := { e.dt with custom := cs } }

end UpcastWriter

/-- Registered upcast converters: an element converter maps a view element name
to a model element name, an attribute converter maps a view element name to a
model attribute key (src/conversion/upcast-converters.js is missing from the
excerpt). -/
structure UpConv where
  elemToElem : String → Option String
  elemToAttr : String → Option String

/-- The upcast converter set with no registered converters. -/
def emptyUpConv : UpConv :=
  ⟨fun _ => none, fun _ => none⟩

mutual

/-- Modelled from the spec: the Upcast Dispatcher's conversion of one view node
(src/conversion/upcastdispatcher.js is missing from the excerpt).  A text run
converts to a model text when the schema allows text in the current context
and is dropped otherwise; an element claimed by an element converter becomes a
model element (children converted in the extended context) when the schema
allows it; an element claimed by an attribute converter contributes its
converted children enriched with the model attribute; an unclaimed element is
dropped, its children converted in place. -/
def upcastNode (conv : UpConv) (schema : List String → String → Bool)
    (ctx : List String) : VNode → List MNode
  | .text d => if schema ctx "$text" then [.text d []] else []
  | .element dt children =>
    match conv.elemToElem dt.name with
    | some m =>
        if schema ctx m then
          [.element m [] (upcastNodes conv schema (ctx ++ [m]) children)]
        else []
    | none =>
      match conv.elemToAttr dt.name with
      | some key => (upcastNodes conv schema ctx children).map (MNode.addAttr key)
      | none => upcastNodes conv schema ctx children

/-- Modelled from the spec: the Upcast Dispatcher walks a view child sequence
in document order, converting each node in turn
(src/conversion/upcastdispatcher.js is missing from the excerpt). -/
def upcastNodes (conv : UpConv) (schema : List String → String → Bool)
    (ctx : List String) : List VNode → List MNode
  | [] => []
  | n :: ns => upcastNode conv schema ctx n ++ upcastNodes conv schema ctx ns

end

/-- Modelled from the spec: `parse(markup, context)` of the DataController
(src/controller/datacontroller.js is missing from the excerpt): markup goes
through the external data processor to a view tree, which the Upcast
Dispatcher converts to a model fragment.  The data processor is an external
collaborator and enters the model as the `processor` parameter. -/
def parse (processor : String → List VNode) (conv : UpConv)
    (schema : List String → String → Bool) (ctx : List String)
    (markup : String) : List MNode :=
  upcastNodes conv schema ctx (processor markup)

/-- Registered downcast converters: element-to-element, attribute-to-element
and marker-to-highlight (keyed by marker name, giving the highlight class)
(src/conversion/downcast-converters.js is missing from the excerpt). -/
structure DownConv where
  elemToElem : String → Option String
  attrToElem : String → Option String
  markerClass : String → Option String

/-- A view element produced by a downcast converter (conversion-produced
objects carry identity token 0). -/
def mkViewEl (name : String) (classes : List String) (children : List VNode) : VNode :=
  VNode.element ⟨0, name, [], classes, [], []⟩ children

/-- Wrap a view node in the attribute converter's wrapper element, when one is
registered for the attribute key; otherwise leave the node as it is. -/
def wrapAttr (conv : DownConv) (v : VNode) (kv : String × Bool) : VNode :=
  match conv.attrToElem kv.1 with
  | some w => mkViewEl w [] [v]
  | none => v

mutual

/-- Modelled from the spec: the Downcast Dispatcher's conversion of one model
node (src/conversion/downcastdispatcher.js is missing from the excerpt).  A
model text becomes a view text wrapped by the attribute converters' elements
for its attributes (an attribute with no matching converter contributes no
wrapper); a model element claimed by an element converter becomes the
corresponding view element; an unclaimed element contributes its converted
children. -/
def downcastNode (conv : DownConv) : MNode → List VNode
  | .text d attrs => [attrs.foldl (wrapAttr conv) (VNode.text d)]
  | .element n _ children =>
    match conv.elemToElem n with
    | some vn => [mkViewEl vn [] (downcastNodes conv children)]
    | none => downcastNodes conv children

/-- Modelled from the spec: the Downcast Dispatcher converts a model child
sequence in document order (src/conversion/downcastdispatcher.js is missing
from the excerpt). -/
def downcastNodes (conv : DownConv) : List MNode → List VNode
  | [] => []
  | n :: ns => downcastNode conv n ++ downcastNodes conv ns

end

/-- Modelled from the spec: the marker-to-highlight converter wraps exactly the
characters of a text run covered by the marker interval `[a, b)` (offsets
relative to the run) in one highlight `span` element carrying the configured
class, leaving uncovered characters unwrapped and in original order
(src/conversion/downcast-converters.js is missing from the excerpt). -/
def highlightText (cls : String) (a b : Nat) (s : String) : List VNode :=
  let pre := s.take a
  let mid := (s.drop a).take (b - a)
  let post := s.drop b
  (if pre = "" then [] else [VNode.text pre]) ++
  ((if mid = "" then [] else [mkViewEl "span" [cls] [VNode.text mid]]) ++
   (if post = "" then [] else [VNode.text post]))

/-- Modelled from the spec: downcast of an element's child sequence while a
marker covering model offsets `[a, b)` of that element is active; `off` is the
model offset at which the sequence starts.  The covered part of each text run
is wrapped by `highlightText`; child elements are converted ordinarily
(src/conversion/downcast-converters.js is missing from the excerpt). -/
def downcastMarked (conv : DownConv) (cls : String) (a b : Nat) :
    Nat → List MNode → List VNode
  | _, [] => []
  | off, .text d attrs :: rest =>
      let len := d.length
      let lo := max a off
      let hi := min b (off + len)
      (if lo < hi then highlightText cls (lo - off) (hi - off) d
       else [attrs.foldl (wrapAttr conv) (VNode.text d)]) ++
      downcastMarked conv cls a b (off + len) rest
  | off, .element n at₁ children :: rest =>
      downcastNode conv (.element n at₁ children) ++
      downcastMarked conv cls a b (off + 1) rest

/-- Modelled from the spec: `toView` of the DataController with a named marker
covering model offsets `[a, b)` inside the converted element, downcast through
the marker-to-highlight converter registered for that marker name
(src/controller/datacontroller.js is missing from the excerpt). -/
def toViewMarked (conv : DownConv) (mname : String) (a b : Nat) : MNode → List VNode
  | .element n _ children =>
    match conv.elemToElem n, conv.markerClass mname with
    | some vn, some cls => [mkViewEl vn [] (downcastMarked conv cls a b 0 children)]
    | some vn, none => [mkViewEl vn [] (downcastNodes conv children)]
    | none, _ => downcastNodes conv children
  | .text d attrs => downcastNode conv (.text d attrs)

/-- Modelled from the spec: the named error raised by `init` on an already
populated root (the source raises it as the named CKEditorError
`datacontroller-init-document-not-empty`; src/controller/datacontroller.js is
missing from the excerpt). -/
inductive InitError where
  | documentAlreadyInitialized : InitError

/-- State of a DataController's target root: the root's content. -/
structure DCState where
  root : List MNode

namespace DataController

/-- Modelled from the spec: `init(markup)` of the DataController
(src/controller/datacontroller.js is missing from the excerpt): like `set` it
parses the markup (through the `convert` pipeline) and replaces the root's
content, but it fails with DocumentAlreadyInitialized — leaving the state
untouched — when the target root already has content. -/
def init (convert : String → List MNode) (markup : String) (s : DCState) :
    DCState × Option InitError :=
  if s.root.isEmpty then ({ root := convert markup }, none)
  else (s, some InitError.documentAlreadyInitialized)

end DataController

/-- A conversion-source view element with no attributes, classes or styles
(identity token 0). -/
def mkEl (name : String) (children : List VNode) : VNode :=
  VNode.element ⟨0, name, [], [], [], []⟩ children

/-- Upcast converters of the parsing scenario: element converter view `p` →
model `paragraph`, attribute converter view `strong` → model attribute
`bold`. -/
def convPBold : UpConv :=
  ⟨fun n => if n = "p" then some "paragraph" else none,
   fun n => if n = "strong" then some "bold" else none⟩

/-- Schema of the parsing scenario: `paragraph` allowed in the root, text
allowed inside `paragraph`. -/
def schemaPBold (ctx : List String) (name : String) : Bool :=
  (ctx == ["$root"] && name == "paragraph") ||
  (ctx == ["$root", "paragraph"] && name == "$text")

/-- External data-processor association for the scenario markup: the markup
`<p>foo<strong>bar</strong></p>` parses to the corresponding view tree. -/
def processorPBold (m : String) : List VNode :=
  if m = "<p>foo<strong>bar</strong></p>" then
    [mkEl "p" [VNode.text "foo", mkEl "strong" [VNode.text "bar"]]]
  else []

/-- Downcast converters of the marker scenario: `paragraph` → `p`, marker
`marker:a` highlighted with class `a`, no attribute converters. -/
def convMarkerA : DownConv :=
  ⟨fun n => if n = "paragraph" then some "p" else none,
   fun _ => none,
   fun m => if m = "marker:a" then some "a" else none⟩

/-- Downcast converters with an element converter but no attribute converter
(the `bold`-less configuration of the tests). -/
def convPNoBold : DownConv :=
  ⟨fun n => if n = "paragraph" then some "p" else none,
   fun _ => none,
   fun _ => none⟩

/-- A schema that rejects everything (text is not allowed anywhere). -/
def schemaNone : List String → String → Bool :=
  fun _ _ => false

/-- A schema that accepts everything. -/
def schemaAllText : List String → String → Bool :=
  fun _ _ => true

/-- A two-child paragraph fixture. -/
def par2 : VElem :=
  ⟨⟨1, "p", [], [], [], []⟩, [VNode.text "Foo ", mkEl "i" [VNode.text "Bar"]]⟩

/-- Two detached block nodes to insert. -/
def blocks2 : List VNode :=
  [mkEl "blockquote" [], mkEl "h2" []]

/-- An attached `u` element fixture. -/
def elU : VElem :=
  ⟨⟨5, "u", [], [], [], []⟩, [VNode.text "Some underlined"]⟩

/-- A paragraph holding `elU` as its first child. -/
def parU : VElem :=
  ⟨⟨6, "p", [], [], [], []⟩, [elU.toNode, VNode.text " text"]⟩

/-- An element with no classes. -/
def elH1 : VElem :=
  ⟨⟨8, "h1", [], [], [], []⟩, []⟩

/-- An element with two custom properties. -/
def elProp : VElem :=
  ⟨⟨3, "span", [], [], [], [("prop1", 5), ("prop2", 6)]⟩, []⟩

/-- The model paragraph produced by the first `init` of the scenario. -/
def fooParagraph : MNode :=
  MNode.element "paragraph" [] [MNode.text "Foo" []]

/-- A conversion pipeline producing that paragraph for any markup. -/
def convFoo : String → List MNode :=
  fun _ => [fooParagraph]

theorem length_splice {α : Type} (l : List α) (i : Nat) (n : α) (hi : i < l.length) :
    (l.take i ++ n :: l.drop (i + 1)).length = l.length := by
  simp [List.length_take]
  omega

theorem getElem?_splice {α : Type} (l : List α) (i : Nat) (n : α) (hi : i < l.length) :
    (l.take i ++ n :: l.drop (i + 1))[i]? = some n := by
  have h1 : (l.take i).length = i := by
    rw [List.length_take]; exact Nat.min_eq_left (Nat.le_of_lt hi)
  rw [List.getElem?_append_right (le_of_eq h1)]
  rw [h1, Nat.sub_self]
  simp

theorem replace_children_eq (p : VElem) (i : Nat) (nn : VNode) (hi : i < p.children.length) :
    (UpcastWriter.replace (some (p, i)) nn).2 =
      some { p with children := p.children.take i ++ nn :: p.children.drop (i + 1) } := by
  have h1 : (p.children.take i).length = i := by
    rw [List.length_take]; exact Nat.min_eq_left (Nat.le_of_lt hi)
  simp [UpcastWriter.replace, UpcastWriter.removeChildren, UpcastWriter.insertChild,
    List.take_left' h1, List.drop_left' h1]

/-- Claim C1: for every node `old` and detached node `new`, `replace(old, new)`
returns `true` and afterwards `new` occupies `old`'s former index in `old`'s
former parent with the parent child-count unchanged if and only if `old` was
attached (its parent pointer `loc` is `some (parent, index)`); if `old` was
detached (`loc = none`), it returns `false` and the tree is unchanged. -/
theorem replace_spec (newNode : VNode) (loc : Option (VElem × Nat)) :
    (∀ p i oldNode, loc = some (p, i) → p.children[i]? = some oldNode →
      (UpcastWriter.replace loc newNode).1 = true ∧
      ∃ p', (UpcastWriter.replace loc newNode).2 = some p' ∧
        p'.children[i]? = some newNode ∧ childCount p' = childCount p) ∧
    (loc = none → UpcastWriter.replace loc newNode = (false, none)) := by
  constructor
  · rintro p i oldNode rfl h
    obtain ⟨hi, -⟩ := List.getElem?_eq_some.mp h
    refine ⟨rfl, ?_⟩
    refine ⟨_, replace_children_eq p i newNode hi, ?_, ?_⟩
    · exact getElem?_splice _ i newNode hi
    · show (p.children.take i ++ newNode :: p.children.drop (i + 1)).length = p.children.length
      exact length_splice _ i newNode hi
  · rintro rfl
    rfl

theorem replace_spec_witness :
    (UpcastWriter.replace (some (par2, 1)) (mkEl "span" [])).1 = true ∧
    (∃ p', (UpcastWriter.replace (some (par2, 1)) (mkEl "span" [])).2 = some p' ∧
      p'.children[1]? = some (mkEl "span" []) ∧ childCount p' = childCount par2) ∧
    UpcastWriter.replace (none : Option (VElem × Nat)) (mkEl "span" []) = (false, none) := by
  have h := (replace_spec (mkEl "span" []) (some (par2, 1))).1
    par2 1 (mkEl "i" [VNode.text "Bar"]) rfl rfl
  exact ⟨h.1, h.2, (replace_spec (mkEl "span" []) none).2 rfl⟩

/-- Claim C2: `remove(n)` on a detached node returns an empty result, never
throws (the model is a total function) and changes no tree; on an attached
node it detaches exactly that node, returns the one-element collection holding
it, and decrements the former parent's child count by one. -/
theorem remove_spec (node : VNode) (loc : Option (VElem × Nat)) :
    (loc = none → UpcastWriter.remove loc = ([], none)) ∧
    (∀ p i, loc = some (p, i) → p.children[i]? = some node →
      (UpcastWriter.remove loc).1 = [node] ∧
      ∃ p', (UpcastWriter.remove loc).2 = some p' ∧
        childCount p' + 1 = childCount p ∧
        p'.children = p.children.take i ++ p.children.drop (i + 1)) := by
  constructor
  · rintro rfl
    rfl
  · rintro p i rfl h
    obtain ⟨hi, hg⟩ := List.getElem?_eq_some.mp h
    constructor
    · show (p.children.drop i).take 1 = [node]
      rw [List.drop_eq_getElem_cons hi]
      simp [hg]
    · refine ⟨_, rfl, ?_, rfl⟩
      show (p.children.take i ++ p.children.drop (i + 1)).length + 1 = p.children.length
      simp [List.length_take]
      omega

theorem remove_spec_witness :
    UpcastWriter.remove (none : Option (VElem × Nat)) = ([], none) ∧
    (UpcastWriter.remove (some (parU, 0))).1 = [elU.toNode] ∧
    (∃ p', (UpcastWriter.remove (some (parU, 0))).2 = some p' ∧
      childCount p' + 1 = childCount parU ∧
      p'.children = parU.children.take 0 ++ parU.children.drop 1) := by
  have h := (remove_spec elU.toNode (some (parU, 0))).2 parU 0 rfl rfl
  exact ⟨(remove_spec elU.toNode none).1 rfl, h.1, h.2⟩

/-- Claim C6: `insertChild(offset, nodes, parent)` with `offset ≤ n` children
returns the count of inserted nodes, grows the parent to `n + k` children, and
the inserted nodes occupy consecutive indices `offset .. offset + k - 1` in
exactly the caller-supplied order (their membership in the parent's child list
is the parent reference of the model). -/
theorem insertChild_spec (index : Nat) (nodes : List VNode) (parent : VElem)
    (h : index ≤ childCount parent) :
    (UpcastWriter.insertChild index nodes parent).1 = nodes.length ∧
    childCount (UpcastWriter.insertChild index nodes parent).2 =
      childCount parent + nodes.length ∧
    ∀ i, i < nodes.length →
      (UpcastWriter.insertChild index nodes parent).2.children[index + i]? = nodes[i]? := by
  have h1 : (parent.children.take index).length = index := by
    rw [List.length_take]; exact Nat.min_eq_left h
  refine ⟨rfl, ?_, ?_⟩
  · show (parent.children.take index ++ (nodes ++ parent.children.drop index)).length =
      parent.children.length + nodes.length
    simp [List.length_take]
    omega
  · intro i hi
    show (parent.children.take index ++ (nodes ++ parent.children.drop index))[index + i]? =
      nodes[i]?
    rw [List.getElem?_append_right (by rw [h1]; omega)]
    rw [h1, Nat.add_sub_cancel_left]
    rw [List.getElem?_append, if_pos hi]

theorem insertChild_spec_witness :
    2 ≤ childCount par2 ∧
    (UpcastWriter.insertChild 2 blocks2 par2).1 = 2 ∧
    childCount (UpcastWriter.insertChild 2 blocks2 par2).2 = 4 ∧
    (UpcastWriter.insertChild 2 blocks2 par2).2.children[2]? = some (mkEl "blockquote" []) ∧
    (UpcastWriter.insertChild 2 blocks2 par2).2.children[3]? = some (mkEl "h2" []) := by
  have h : 2 ≤ childCount par2 := by decide
  have hs := insertChild_spec 2 blocks2 par2 h
  exact ⟨h, hs.1, hs.2.1, hs.2.2 0 (by decide), hs.2.2 1 (by decide)⟩

/-- Claim C7: on an attached element, `rename(newName, e)` returns an element
that is a different object from `e` (the clone carries a fresh identity
token), has name `newName`, and occupies `e`'s former index in its former
parent with the parent's child count unchanged; on a detached element it
returns `null` and changes nothing. -/
theorem rename_spec (fresh : Nat) (newName : String) (el : VElem)
    (loc : Option (VElem × Nat)) :
    (∀ p i, loc = some (p, i) → p.children[i]? = some el.toNode → fresh ≠ el.dt.id →
      ∃ r p', UpcastWriter.rename fresh newName el loc = (some r, some p') ∧
        r ≠ el ∧ r.dt.name = newName ∧ r.children = el.children ∧
        p'.children[i]? = some r.toNode ∧ childCount p' = childCount p) ∧
    (loc = none → UpcastWriter.rename fresh newName el loc = (none, none)) := by
  constructor
  · rintro p i rfl h hf
    obtain ⟨hi, -⟩ := List.getElem?_eq_some.mp h
    refine ⟨⟨{ el.dt with name := newName, id := fresh }, el.children⟩,
      { p with children := p.children.take i ++
          VElem.toNode ⟨{ el.dt with name := newName, id := fresh }, el.children⟩ ::
          p.children.drop (i + 1) }, ?_, ?_, rfl, rfl, ?_, ?_⟩
    · show (some _, (UpcastWriter.replace (some (p, i)) _).2) = (some _, some _)
      rw [replace_children_eq p i _ hi]
    · intro heq
      exact hf (congrArg (fun x => x.dt.id) heq)
    · exact getElem?_splice _ i _ hi
    · show (p.children.take i ++ _ :: p.children.drop (i + 1)).length = p.children.length
      exact length_splice _ i _ hi
  · rintro rfl
    rfl

theorem rename_spec_witness :
    ∃ r p', UpcastWriter.rename 7 "h3" elU (some (parU, 0)) = (some r, some p') ∧
      r ≠ elU ∧ r.dt.name = "h3" ∧ r.children = elU.children ∧
      p'.children[0]? = some r.toNode ∧ childCount p' = childCount parU :=
  (rename_spec 7 "h3" elU (some (parU, 0))).1 parU 0 rfl rfl (by decide)

theorem filter_ne_idem (l : List String) (c : String) :
    (l.filter (fun s => !(s == c))).filter (fun s => !(s == c)) =
      l.filter (fun s => !(s == c)) := by
  rw [List.filter_filter]
  simp

theorem filter_ne_self (l : List String) (c : String)
    (h : l.any (fun s => s == c) = false) :
    l.filter (fun s => !(s == c)) = l := by
  refine List.filter_eq_self.mpr ?_
  intro a ha
  have h2 : (a == c) = false := by
    have := List.any_eq_false.mp h a ha
    simpa using this
  simp [h2]

/-- Claim C8: `removeClass(c, e)` is idempotent — calling it twice yields
exactly the state of calling it once — and calling it when `e` does not have
class `c` is a no-op that leaves the element unchanged (and, the model being a
total function, raises no error). -/
theorem removeClass_idem_noop (c : String) (e : VElem) :
    UpcastWriter.removeClass c (UpcastWriter.removeClass c e) =
      UpcastWriter.removeClass c e ∧
    (UpcastWriter.hasClass c e = false → UpcastWriter.removeClass c e = e) := by
  obtain ⟨⟨eid, en, ea, ec, es, ecu⟩, ech⟩ := e
  constructor
  · simp only [UpcastWriter.removeClass]
    rw [filter_ne_idem]
  · intro h
    simp only [UpcastWriter.hasClass] at h
    simp only [UpcastWriter.removeClass]
    rw [filter_ne_self _ _ h]

theorem removeClass_idem_noop_witness :
    UpcastWriter.removeClass "non-existent" (UpcastWriter.removeClass "non-existent" elH1) =
      UpcastWriter.removeClass "non-existent" elH1 ∧
    UpcastWriter.removeClass "non-existent" elH1 = elH1 :=
  ⟨(removeClass_idem_noop "non-existent" elH1).1,
   (removeClass_idem_noop "non-existent" elH1).2 rfl⟩

theorem lookup_any_of_some (l : List (String × Nat)) (k : String) (w : Nat)
    (h : l.lookup k = some w) : l.any (fun p => p.1 == k) = true := by
  induction l with
  | nil => simp [List.lookup] at h
  | cons a t ih =>
    obtain ⟨a1, a2⟩ := a
    by_cases hk : a1 = k
    · simp [hk]
    · have hk3 : (k == a1) = false := beq_eq_false_iff_ne.mpr (Ne.symm hk)
      have hk2 : (a1 == k) = false := beq_eq_false_iff_ne.mpr hk
      rw [List.lookup_cons, hk3] at h
      simp only [List.any_cons, hk2, Bool.false_or]
      exact ih h

theorem lookup_map_replace (l : List (String × Nat)) (k : String) (v w : Nat)
    (h : l.lookup k = some w) :
    (l.map (fun p => if p.1 == k then (p.1, v) else p)).lookup k = some v := by
  induction l with
  | nil => simp [List.lookup] at h
  | cons a t ih =>
    obtain ⟨a1, a2⟩ := a
    by_cases hk : a1 = k
    · have hk1 : (a1 == k) = true := beq_iff_eq.mpr hk
      have hk4 : (k == a1) = true := beq_iff_eq.mpr (Eq.symm hk)
      simp [List.map_cons, List.lookup_cons, hk, hk4]
    · have hk2 : (a1 == k) = false := beq_eq_false_iff_ne.mpr hk
      have hk3 : (k == a1) = false := beq_eq_false_iff_ne.mpr (Ne.symm hk)
      rw [List.lookup_cons, hk3] at h
      simp only [List.map_cons, List.lookup_cons, hk2, Bool.false_eq_true, ite_false, hk3]
      exact ih h

theorem lookup_map_replace_other (l : List (String × Nat)) (k k' : String) (v : Nat)
    (hne : k' ≠ k) :
    (l.map (fun p => if p.1 == k then (p.1, v) else p)).lookup k' = l.lookup k' := by
  induction l with
  | nil => simp
  | cons a t ih =>
    obtain ⟨a1, a2⟩ := a
    by_cases hk : a1 = k
    · have hk1 : (a1 == k) = true := beq_iff_eq.mpr hk
      have h3 : (k' == a1) = false :=
        beq_eq_false_iff_ne.mpr (fun heq => hne (heq.trans hk))
      simp only [List.map_cons, List.lookup_cons, hk1, ite_true, h3]
      exact ih
    · have hk2 : (a1 == k) = false := beq_eq_false_iff_ne.mpr hk
      cases hbe : (k' == a1) with
      | true =>
        simp [List.map_cons, List.lookup_cons, hk, hbe]
      | false =>
        simp only [List.map_cons, List.lookup_cons, hk2, Bool.false_eq_true, ite_false, hbe]
        exact ih

/-- Claim C10: when the key `k` is already present on element `e`,
`setCustomProperty(k, v, e)` replaces the value stored under `k` with `v`
(values are identity tokens, so replacement is by identity) while leaving
every other custom property's value and the total count of custom properties
unchanged. -/
theorem setCustomProperty_spec (k : String) (v w : Nat) (e : VElem)
    (h : UpcastWriter.getCustomProperty k e = some w) :
    UpcastWriter.getCustomProperty k (UpcastWriter.setCustomProperty k v e) = some v ∧
    (∀ k', k' ≠ k →
      UpcastWriter.getCustomProperty k' (UpcastWriter.setCustomProperty k v e) =
        UpcastWriter.getCustomProperty k' e) ∧
    (UpcastWriter.setCustomProperty k v e).dt.custom.length = e.dt.custom.length := by
  have hany : e.dt.custom.any (fun p => p.1 == k) = true :=
    lookup_any_of_some _ _ _ h
  have hset : (UpcastWriter.setCustomProperty k v e).dt.custom =
      e.dt.custom.map (fun p => if p.1 == k then (p.1, v) else p) := by
    simp [UpcastWriter.setCustomProperty, hany]
  refine ⟨?_, ?_, ?_⟩
  · show ((UpcastWriter.setCustomProperty k v e).dt.custom).lookup k = some v
    rw [hset]
    exact lookup_map_replace _ _ _ _ h
  · intro k' hk'
    show ((UpcastWriter.setCustomProperty k v e).dt.custom).lookup k' =
      e.dt.custom.lookup k'
    rw [hset]
    exact lookup_map_replace_other _ _ _ _ hk'
  · rw [hset]
    simp

theorem setCustomProperty_spec_witness :
    UpcastWriter.getCustomProperty "prop1" elProp = some 5 ∧
    UpcastWriter.getCustomProperty "prop1"
      (UpcastWriter.setCustomProperty "prop1" 9 elProp) = some 9 ∧
    UpcastWriter.getCustomProperty "prop2"
      (UpcastWriter.setCustomProperty "prop1" 9 elProp) =
      UpcastWriter.getCustomProperty "prop2" elProp ∧
    (UpcastWriter.setCustomProperty "prop1" 9 elProp).dt.custom.length =
      elProp.dt.custom.length := by
  have hs := setCustomProperty_spec "prop1" 9 5 elProp rfl
  exact ⟨rfl, hs.1, hs.2.1 "prop2" (by decide), hs.2.2⟩

/-- Claim C3: a second `init` on a root made non-empty by a first successful
`init` fails with the named DocumentAlreadyInitialized error, and the failed
call leaves the root's content exactly as the first `init` set it. -/
theorem init_twice_spec (convert : String → List MNode) (m m' : String) (s s₁ : DCState)
    (_hfirst : DataController.init convert m s = (s₁, none)) (hne : s₁.root ≠ []) :
    DataController.init convert m' s₁ = (s₁, some InitError.documentAlreadyInitialized) := by
  have h2 : s₁.root.isEmpty = false := by
    cases hl : s₁.root with
    | nil => exact absurd hl hne
    | cons a t => rfl
  simp [DataController.init, h2]

theorem init_twice_spec_witness :
    DataController.init convFoo "<p>Foo</p>" ⟨[]⟩ = (⟨[fooParagraph]⟩, none) ∧
    DataController.init convFoo "<p>Bar</p>" ⟨[fooParagraph]⟩ =
      (⟨[fooParagraph]⟩, some InitError.documentAlreadyInitialized) :=
  ⟨rfl,
   init_twice_spec convFoo "<p>Foo</p>" "<p>Bar</p>" ⟨[]⟩ ⟨[fooParagraph]⟩ rfl
     (List.cons_ne_nil _ _)⟩

/-- Claim C4: with the `p → paragraph` element converter and the
`strong → bold` attribute converter registered, parsing
`<p>foo<strong>bar</strong></p>` produces the model fragment consisting of one
`paragraph` element holding the text `foo` followed by the text `bar` carrying
the attribute `bold = true`. -/
theorem parse_p_strong_scenario :
    parse processorPBold convPBold schemaPBold ["$root"] "<p>foo<strong>bar</strong></p>" =
      [MNode.element "paragraph" []
        [MNode.text "foo" [], MNode.text "bar" [("bold", true)]]] := rfl

/-- Claim C5: downcasting the model paragraph `foobar` with a marker covering
character offsets [0, 3) of its text through the marker-to-highlight converter
with class `a` yields the view `<p><span class="a">foo</span>bar</p>`: exactly
the covered characters wrapped in one span with the configured class, the
uncovered characters unwrapped, in original order. -/
theorem toView_marker_highlight_scenario :
    toViewMarked convMarkerA "marker:a" 0 3
        (MNode.element "paragraph" [] [MNode.text "foobar" []]) =
      [mkViewEl "p" [] [mkViewEl "span" ["a"] [VNode.text "foo"], VNode.text "bar"]] := rfl

mutual

theorem upcastNode_empty_text (schema : List String → String → Bool) (ctx : List String)
    (v : VNode) : ∀ m ∈ upcastNode emptyUpConv schema ctx v, MNode.isText m = true := by
  cases v with
  | text d =>
    intro m hm
    by_cases hs : schema ctx "$text" = true
    · simp only [upcastNode, hs, ite_true, List.mem_singleton] at hm
      rw [hm]
      rfl
    · simp only [upcastNode, hs, Bool.false_eq_true, ite_false, List.not_mem_nil] at hm
  | element dt children =>
    intro m hm
    have hred : upcastNode emptyUpConv schema ctx (VNode.element dt children) =
        upcastNodes emptyUpConv schema ctx children := rfl
    rw [hred] at hm
    exact upcastNodes_empty_text schema ctx children m hm

theorem upcastNodes_empty_text (schema : List String → String → Bool) (ctx : List String)
    (ns : List VNode) :
    ∀ m ∈ upcastNodes emptyUpConv schema ctx ns, MNode.isText m = true := by
  cases ns with
  | nil =>
    intro m hm
    simp [upcastNodes] at hm
  | cons n rest =>
    intro m hm
    rw [show upcastNodes emptyUpConv schema ctx (n :: rest) =
        upcastNode emptyUpConv schema ctx n ++ upcastNodes emptyUpConv schema ctx rest
      from rfl] at hm
    rcases List.mem_append.mp hm with h1 | h2
    · exact upcastNode_empty_text schema ctx n m h1
    · exact upcastNodes_empty_text schema ctx rest m h2

end

theorem foldl_wrapAttr_none (conv : DownConv) (hn : ∀ key, conv.attrToElem key = none)
    (v : VNode) (attrs : List (String × Bool)) :
    attrs.foldl (wrapAttr conv) v = v := by
  induction attrs generalizing v with
  | nil => rfl
  | cons a t ih =>
    rw [List.foldl_cons]
    have hstep : wrapAttr conv v a = v := by
      simp [wrapAttr, hn a.1]
    rw [hstep]
    exact ih v

/-- Claim C9: content no registered converter claims is dropped silently, never
an error (the conversion functions are total): upcasting with no registered
converters yields a fragment holding no element nodes at all, a text run in a
context whose schema disallows text upcasts to the empty fragment, and
downcasting a model text carrying an attribute with no matching attribute
converter yields the plain view text with no wrapping element. -/
theorem conversion_miss_dropped :
    (∀ (schema : List String → String → Bool) (ctx : List String) (ns : List VNode),
      ∀ m ∈ upcastNodes emptyUpConv schema ctx ns, MNode.isText m = true) ∧
    (∀ (conv : UpConv) (schema : List String → String → Bool) (ctx : List String)
      (d : String), schema ctx "$text" = false →
        upcastNode conv schema ctx (VNode.text d) = []) ∧
    (∀ (conv : DownConv) (d : String) (attrs : List (String × Bool)),
      (∀ key, conv.attrToElem key = none) →
        downcastNode conv (MNode.text d attrs) = [VNode.text d]) := by
  refine ⟨fun schema ctx ns => upcastNodes_empty_text schema ctx ns, ?_, ?_⟩
  · intro conv schema ctx d hs
    simp [upcastNode, hs]
  · intro conv d attrs hn
    simp only [downcastNode, List.cons.injEq, and_true]
    exact foldl_wrapAttr_none conv hn _ attrs

theorem conversion_miss_dropped_witness :
    MNode.isText (MNode.text "foo" []) = true ∧
    upcastNode emptyUpConv schemaNone ["$root"] (VNode.text "foo") = [] ∧
    downcastNode convPNoBold (MNode.text "bar" [("bold", true)]) = [VNode.text "bar"] := by
  refine ⟨?_, ?_, ?_⟩
  · exact conversion_miss_dropped.1 schemaAllText ["$root"] [VNode.text "foo"]
      (MNode.text "foo" []) (List.Mem.head _)
  · exact conversion_miss_dropped.2.1 emptyUpConv schemaNone ["$root"] "foo" rfl
  · exact conversion_miss_dropped.2.2 convPNoBold "bar" [("bold", true)] (fun _ => rfl)
